import Mathlib

/-!
Verification development for the header-minimization tool
(src/headers_analyzer.py).  The program parts the claims depend on are
shallowly embedded below: Python floats become rationals with explicit
rounding, Python dicts with string keys become insertion-ordered
association lists, the network transport and the wall-clock become
explicit function/flag parameters, and code that can raise
(division by zero in the length metric) returns Option.
-/

namespace HeadersAnalyzer

/-! ## Module constants (headers_analyzer.py lines 21-23) -/

def MINIMAL_RESP_CHECK_N : Nat := 10

def DIST_ROUND_PRECISION : Nat := 3

def EXPECTED_TEXT_ANOMALY : Bool := false

/-! ## Python round at 3 digits

Python round(x, 3) rounds half to even (bankers rounding); we model it on
exact rationals. -/

def pyRoundInt (x : ℚ) : ℤ :=
  let f := ⌊x⌋
  if x - f < 1 / 2 then f
  else if (1 : ℚ) / 2 < x - f then f + 1
  else if f % 2 = 0 then f else f + 1

def pyRound3 (x : ℚ) : ℚ :=
  (pyRoundInt (x * 1000) : ℚ) / 1000

/-! ## Data model

A response is what the transport returns (status code and body text); a
ResponseResult (class ResponseResult, lines 43-49) couples it with the
request headers that produced it.  Headers model a Python dict from
header name to value: insertion-ordered, no duplicate keys. -/

structure Response where
  status_code : Nat
  text : String
deriving DecidableEq

abbrev Headers := List (String × String)

structure ResponseResult where
  response : Response
  req_headers : Headers
deriving DecidableEq

/-! ## length_ratio (lines 52-56)

min(len)/max(len); Python raises ZeroDivisionError when both bodies are
empty, modelled as none. -/

def length_ratio (a b : ResponseResult) : Option ℚ :=
  let a_len := a.response.text.length
  let b_len := b.response.text.length
  if max a_len b_len = 0 then none
  else some (((min a_len b_len : ℕ) : ℚ) / ((max a_len b_len : ℕ) : ℚ))

/-! ## difflib_ratio (lines 58-61)

Embedding of CPython difflib.SequenceMatcher(a=a_text, b=b_text).ratio()
with no isjunk function and the default autojunk=True.  The b2j dict of
chain_b maps each element of b to its ascending list of indices, with
elements more popular than n // 100 + 1 dropped when len(b) >= 200
(autojunk); a dict is represented by its lookup function, a missing key
giving []. -/

def occ (b : List Char) (c : Char) : List Nat :=
  (List.range b.length).filter (fun j => decide (b.getD j default = c))

def b2jGet (b : List Char) (c : Char) : List Nat :=
  if 200 ≤ b.length ∧ b.length / 100 + 1 < (occ b c).length then []
  else occ b c

/-- j2len.get(j - 1, 0) of find_longest_match; Python looks up key -1 when
j = 0, which is never present, so that case reads 0. -/
def j2get (row : Nat → Nat) (j : Nat) : Nat :=
  if j = 0 then 0 else row (j - 1)

/-- One row of the newj2len dict of find_longest_match, as a lookup
function: positions outside the window or not matching a[i] are absent
(0).  Reads only the previous row, as the source does. -/
def fl_row (row : Nat → Nat) (ps : List Nat) (blo bhi : Nat) : Nat → Nat :=
  fun j => if j ∈ ps ∧ blo ≤ j ∧ j < bhi then j2get row j + 1 else 0

/-- The best-block updates performed while scanning one row.  The source
iterates b2j[a[i]] skipping j < blo and breaking at the first j >= bhi;
as that list is ascending this processes exactly the members inside the
window, in order. -/
def fl_best (row : Nat → Nat) (ps : List Nat) (blo bhi i : Nat)
    (best : Nat × Nat × Nat) : Nat × Nat × Nat :=
  (ps.filter (fun j => decide (blo ≤ j ∧ j < bhi))).foldl
    (fun best j =>
      let k := j2get row j + 1
      if best.2.2 < k then (i + 1 - k, j + 1 - k, k) else best)
    best

/-- The dynamic-programming loop of find_longest_match: fold over
i in range(alo, ahi) carrying (j2len, (besti, bestj, bestsize)). -/
def fl_dp (a b : List Char) (alo ahi blo bhi : Nat) : Nat × Nat × Nat :=
  ((List.range' alo (ahi - alo)).foldl
    (fun st i =>
      let ps := b2jGet b (a.getD i default)
      (fl_row st.1 ps blo bhi, fl_best st.1 ps blo bhi i st.2))
    (fun _ => 0, (alo, blo, 0))).2

/-- The first extension loop of find_longest_match: grow the block
leftwards while the characters before it match (the junk set is empty
here, no isjunk was given and autojunk populates only bpopular, so the
non-junk guard always holds and the later junk loops never fire). -/
def extLeft (a b : List Char) (alo blo : Nat) :
    Nat → Nat → Nat → Nat × Nat × Nat
  | 0, bj, bs => (0, bj, bs)
  | bi + 1, bj, bs =>
    if alo ≤ bi ∧ blo < bj ∧ a.getD bi default = b.getD (bj - 1) default then
      extLeft a b alo blo bi (bj - 1) (bs + 1)
    else (bi + 1, bj, bs)

/-- The second extension loop: grow the block rightwards while characters
match.  Fuel-based; each pass needs bi + bs < ahi and increments bs, so
ahi + 1 units of fuel always suffice. -/
def extRightAux (a b : List Char) (ahi bhi bi bj : Nat) : Nat → Nat → Nat
  | 0, bs => bs
  | fuel + 1, bs =>
    if bi + bs < ahi ∧ bj + bs < bhi ∧
        a.getD (bi + bs) default = b.getD (bj + bs) default then
      extRightAux a b ahi bhi bi bj fuel (bs + 1)
    else bs

def find_longest_match (a b : List Char) (alo ahi blo bhi : Nat) :
    Nat × Nat × Nat :=
  let d := fl_dp a b alo ahi blo bhi
  let e := extLeft a b alo blo d.1 d.2.1 d.2.2
  (e.1, e.2.1, extRightAux a b ahi bhi e.1 e.2.1 (ahi + 1) e.2.2)

/-- Total size of the matching blocks of get_matching_blocks.  The source
collects blocks from a queue, sorts them and merges adjacent ones; sorting
does not change the total size, merging adds sizes and the terminal
(la, lb, 0) sentinel adds 0, so ratio() only needs this sum.  Fuel-based:
every recursive call strictly shrinks the combined window size, so
la + lb + 1 units of fuel always suffice. -/
def matchesAux (a b : List Char) : Nat → Nat → Nat → Nat → Nat → Nat
  | 0, _, _, _, _ => 0
  | fuel + 1, alo, ahi, blo, bhi =>
    let m := find_longest_match a b alo ahi blo bhi
    if m.2.2 = 0 then 0
    else
      m.2.2 +
        (if alo < m.1 ∧ blo < m.2.1 then
          matchesAux a b fuel alo m.1 blo m.2.1 else 0) +
        (if m.1 + m.2.2 < ahi ∧ m.2.1 + m.2.2 < bhi then
          matchesAux a b fuel (m.1 + m.2.2) ahi (m.2.1 + m.2.2) bhi else 0)

def totalMatches (a b : List Char) : Nat :=
  matchesAux a b (a.length + b.length + 1) 0 a.length 0 b.length

/-- difflib calculate_ratio: 2 * matches / total length, and 1.0 when
both sequences are empty. -/
def calculate_ratio (matchCount totalLen : Nat) : ℚ :=
  if totalLen = 0 then 1 else (2 * matchCount : ℚ) / (totalLen : ℚ)

def difflib_ratio (a b : ResponseResult) : ℚ :=
  calculate_ratio (totalMatches a.response.text.data b.response.text.data)
    (a.response.text.data.length + b.response.text.data.length)

/-- Proof helper: the state (j2len row as a lookup function, and the best
triple) of the fl_dp fold after the first i rows, for the pair (s, s)
with the full window. -/
def dpState (s : List Char) : Nat → ((Nat → Nat) × (Nat × Nat × Nat))
  | 0 => (fun _ => 0, (0, 0, 0))
  | i + 1 =>
    let st := dpState s i
    let ps := b2jGet s (s.getD i default)
    (fl_row st.1 ps 0 s.length, fl_best st.1 ps 0 s.length i st.2)

/-- Proof helper: the dp value reached on the diagonal cell (j, j) for the
pair (s, s) with the full window. -/
def diag (s : List Char) : Nat → Nat
  | 0 => if 0 ∈ b2jGet s (s.getD 0 default) then 1 else 0
  | j + 1 =>
    if j + 1 ∈ b2jGet s (s.getD (j + 1) default) then diag s j + 1 else 0

/-- Python str.lower, character by character; Char.toLower is the ASCII
mapping, which agrees with str.lower on ASCII header names. -/
def py_lower (s : String) : String := String.mk (s.data.map Char.toLower)

/-! ## Python dict with string keys

Assignment d[k] = v replaces the value in place when the key is present
(keeping its position) and appends a new entry otherwise. -/

def dictSet {α : Type} (h : List (String × α)) (k : String) (v : α) :
    List (String × α) :=
  if h.any (fun p => decide (p.1 = k)) then
    h.map (fun p => if p.1 = k then (k, v) else p)
  else h ++ [(k, v)]

/-! ## The identity catalog UAS (lines 25-40), insertion-ordered -/

def modern_ua : String :=
  "Mozilla/5.0 (Macintosh; Intel Mac OS X 10_15_6) AppleWebKit/537.36 (KHTML, like Gecko) Chrome/87.0.4280.141 Safari/537.36"

def UAS : List (String × String) :=
  [("modern ua", modern_ua),
   ("modern mobile ua", "Mozilla/5.0 (iPhone; CPU iPhone OS 10_3_1 like Mac OS X) AppleWebKit/603.1.30 (KHTML, like Gecko) Version/10.0 Mobile/14E304 Safari/602.1"),
   ("old ua", "Mozilla/5.0 (X11; U; Linux i686; en-US; rv:1.9a1) Gecko/20060814 Firefox/51.0"),
   ("ie", "Mozilla/4.0 (compatible; MSIE 9.0; Windows NT 6.0)"),
   ("python-requests", "python-requests/2.2.1 CPython/2.7.5 Darwin/13.1.0"),
   ("curl", "curl/7.55.1"),
   ("fb", "facebookexternalhit/1.1"),
   ("google media", "Mediapartners-Google"),
   ("googlebot desktop", "Mozilla/5.0 (compatible; Googlebot/2.1; +http://www.google.com/bot.html)"),
   ("adsbot google mobile", "Mozilla/5.0 (Linux; Android 5.0; SM-G920A) AppleWebKit (KHTML, like Gecko) Chrome Mobile Safari (compatible; AdsBot-Google-Mobile; +http://www.google.com/mobile/adsbot.html)"),
   ("yandex cralwer", "Mozilla/5.0 (compatible; YandexBot/3.0; +http://yandex.com/bots)"),
   ("yandex metrica", "Mozilla/5.0 (compatible; YandexMetrika/4.0; +http://yandex.com/bots)"),
   ("whatsapp", "WhatsApp/2.19.81 A"),
   ("twitter", "Twitterbot/1.0")]

/-! ## make_request (lines 65-88)

The network transport is the function parameter req_fun (a lambda over
requests in the source) and the similarity metric is dist_fun, as in the
source.  The module global EXPECTED_TEXT_ANOMALY that the function reads
is threaded as the explicit first parameter flag; make_request fixes it
to the shipped constant.  Python expected_text is None or a string;
"t and t in r.text" is falsy when t is None or empty. -/

def is_text_present (expected_text : Option String) (body : String) : Bool :=
  match expected_text with
  | none => false
  | some t => if t = "" then false else decide (t.data <:+: body.data)

structure ProbeData where
  code : Nat
  len : Nat
  diff : ℚ
  is_anomaly : Bool
  resp : ResponseResult
  is_present_text : Bool
  ua : Option String := none
deriving DecidableEq

def make_request_flag (flag : Bool) (req_fun : Headers → Response)
    (dist_fun : ResponseResult → ResponseResult → ℚ)
    (headers : Headers) (ratio : ℚ) (ref : ResponseResult)
    (expected_text : Option String) (key : String) : Bool × ProbeData :=
  let r := req_fun headers
  let key_resp : ResponseResult := ⟨r, headers⟩
  let distance := pyRound3 (dist_fun ref key_resp)
  let is_anomaly : Bool := decide (distance < ratio)
  let is_expected_text_present := is_text_present expected_text r.text
  let data : ProbeData :=
    ⟨r.status_code, r.text.length, distance, is_anomaly, key_resp,
      is_expected_text_present, none⟩
  (is_anomaly || (!is_expected_text_present && flag), data)

def make_request (req_fun : Headers → Response)
    (dist_fun : ResponseResult → ResponseResult → ℚ)
    (headers : Headers) (ratio : ℚ) (ref : ResponseResult)
    (expected_text : Option String) (key : String) : Bool × ProbeData :=
  make_request_flag EXPECTED_TEXT_ANOMALY req_fun dist_fun headers ratio ref
    expected_text key

/-! ## check_other_uas (lines 91-104)

The loop body copies the headers dict and assigns the lowercase key
"user-agent"; the catalog (the global UAS, which main may mutate first)
is threaded as the parameter uas.  Anomalous results gain a "ua" entry
and are stored in the res dict keyed by catalog label. -/

def ua_probe_headers (headers : Headers) (ua : String) : Headers :=
  dictSet headers "user-agent" ua

/-- The body of the check_other_uas loop. -/
def cou_step (req_fun : Headers → Response)
    (dist_fun : ResponseResult → ResponseResult → ℚ)
    (headers : Headers) (ratio : ℚ) (ref : ResponseResult)
    (expected_text : Option String) (res : List (String × ProbeData))
    (p : String × String) : List (String × ProbeData) :=
  let headers_copy := ua_probe_headers headers p.2
  let pr := make_request req_fun dist_fun headers_copy ratio ref
    expected_text p.1
  if pr.1 then dictSet res p.1 { pr.2 with ua := some p.2 } else res

def check_other_uas (uas : List (String × String))
    (req_fun : Headers → Response)
    (dist_fun : ResponseResult → ResponseResult → ℚ)
    (headers : Headers) (ratio : ℚ) (ref : ResponseResult)
    (expected_text : Option String) : List (String × ProbeData) :=
  uas.foldl (cou_step req_fun dist_fun headers ratio ref expected_text) []

/-! ## check_removed_headers (lines 107-127)

Each key of the original dict is probed with the one-header-removed copy
built from the original headers; non-anomalous keys are collected and
deleted from a copy of the original dict at the end. -/

def removal_probe (req_fun : Headers → Response)
    (dist_fun : ResponseResult → ResponseResult → ℚ)
    (headers : Headers) (ratio : ℚ) (ref : ResponseResult)
    (expected_text : Option String) (key : String) : Bool × ProbeData :=
  make_request req_fun dist_fun
    (headers.filter fun kv => decide (kv.1 ≠ key)) ratio ref expected_text key

/-- The body of the check_removed_headers loop, accumulating the res dict
and the keys_to_del list. -/
def crh_step (req_fun : Headers → Response)
    (dist_fun : ResponseResult → ResponseResult → ℚ)
    (headers : Headers) (ratio : ℚ) (ref : ResponseResult)
    (expected_text : Option String)
    (st : List (String × ProbeData) × List String) (key : String) :
    List (String × ProbeData) × List String :=
  let pr := removal_probe req_fun dist_fun headers ratio ref expected_text key
  if pr.1 then (dictSet st.1 key pr.2, st.2) else (st.1, st.2 ++ [key])

def check_removed_headers (req_fun : Headers → Response)
    (dist_fun : ResponseResult → ResponseResult → ℚ)
    (headers : Headers) (ratio : ℚ) (ref : ResponseResult)
    (expected_text : Option String) : Headers × List (String × ProbeData) :=
  let rd := (headers.map Prod.fst).foldl
    (crh_step req_fun dist_fun headers ratio ref expected_text) ([], [])
  (headers.filter fun kv => !(rd.2.contains kv.1), rd.1)

/-! ## Metric selection and threshold (main, lines 183-214)

The metric starts as difflib_ratio; if the FIRST repeated sample body
is longer than 10000 characters the length metric is chosen, otherwise a
difflib probe is timed and a slow probe (over 0.5s of wall clock, the
external flag slow here) downgrades to the length metric.  In every
branch probe_ratio is recomputed with the finally selected metric, so
the ratios list is that metric applied to every sample.  The threshold
is the rounded minimum of the ratios. -/

inductive DistChoice
  | length
  | difflib
deriving DecidableEq

def choose_dist (sample0_len : Nat) (slow : Bool) : DistChoice :=
  if 10000 < sample0_len then DistChoice.length
  else if slow then DistChoice.length
  else DistChoice.difflib

def dist_apply : DistChoice → ResponseResult → ResponseResult → Option ℚ
  | DistChoice.length => length_ratio
  | DistChoice.difflib => fun a b => some (difflib_ratio a b)

def run_choice (responses : List ResponseResult) (slow : Bool) :
    Option DistChoice :=
  match responses with
  | [] => none
  | r0 :: _ => some (choose_dist r0.response.text.length slow)

def seqOption {α : Type} : List (Option α) → Option (List α)
  | [] => some []
  | x :: xs => x.bind fun a => (seqOption xs).map fun l => a :: l

/-- Python min over a nonempty list, given as head and tail. -/
def pymin (x : ℚ) (l : List ℚ) : ℚ := l.foldl min x

/-- The rounded minimum of a list of similarity scores (lines 209-214);
none models the unreachable empty-list case. -/
def min_rounded : List ℚ → Option ℚ
  | [] => none
  | x :: xs => some (pyRound3 (pymin x xs))

/-- The baseline phase of main (lines 195-214): select the metric from
the first repeated sample, compute every similarity against the
reference, take the rounded minimum.  A crash of the metric
(ZeroDivisionError in length_ratio) propagates as none. -/
def run_threshold (ref : ResponseResult) (responses : List ResponseResult)
    (slow : Bool) : Option ℚ :=
  match responses with
  | [] => none
  | r0 :: rest =>
    let c := choose_dist r0.response.text.length slow
    (dist_apply c ref r0).bind fun probe_ratio =>
      (seqOption (rest.map fun resp => dist_apply c ref resp)).map
        fun ratios => pyRound3 (pymin probe_ratio ratios)

/-! ## Default user-agent injection (main, lines 151-154)

When no header key lowercases to "user-agent", the modern-browser value
is assigned into the headers and its entry is deleted from the global
catalog before any probing. -/

def prepare_headers (headers : Headers) : Headers × List (String × String) :=
  if "user-agent" ∈ headers.map (fun p => py_lower p.1) then (headers, UAS)
  else (dictSet headers "user-agent" modern_ua,
    UAS.filter fun p => decide (p.1 ≠ "modern ua"))

/-! ## The probing phases of main (lines 209-251)

After the metric is fixed, main computes reference_ratio once and passes
it, the reference snapshot and the metric unchanged to
check_removed_headers and then (unless no header was removable, which
exits first) to check_other_uas.  The metric variable holds a total
function at this point; it is abstracted as dist_fun. -/

structure AnalysisOut where
  reference_ratio : ℚ
  minimal_headers : Headers
  del_anomalies : List (String × ProbeData)
  ua_anomalies : Option (List (String × ProbeData))
deriving DecidableEq

def analysis (req_fun : Headers → Response)
    (dist_fun : ResponseResult → ResponseResult → ℚ)
    (ref : ResponseResult) (responses : List ResponseResult)
    (headers : Headers) (uas : List (String × String))
    (expected_text : Option String) : AnalysisOut :=
  let reference_ratio :=
    match responses.map (fun resp => dist_fun ref resp) with
    | [] => 0
    | x :: xs => pyRound3 (pymin x xs)
  let md := check_removed_headers req_fun dist_fun headers reference_ratio
    ref expected_text
  if md.1.length = headers.length then
    ⟨reference_ratio, md.1, md.2, none⟩
  else
    ⟨reference_ratio, md.1, md.2,
      some (check_other_uas uas req_fun dist_fun headers reference_ratio
        ref expected_text)⟩

/-! ## The anomaly formula as the spec words it -/

/-- Modelled from the spec: "is_anomaly = (similarity < threshold) OR
(expected_text is configured AND expected_text not in body AND
missing-text-counts-as-anomaly policy is on)".  Used only to compare the
claimed formula with what the code computes. -/
def spec_is_anomaly (similarity threshold : ℚ) (expected_text : Option String)
    (body : String) (policy : Bool) : Bool :=
  decide (similarity < threshold) ||
    (match expected_text with
     | none => false
     | some t => !(decide (t.data <:+: body.data)) && policy)

/-! ## Concrete inputs for witnesses and counterexamples -/

def req0 : Headers → Response := fun _ => ⟨200, "Hello"⟩

def dist0 : ResponseResult → ResponseResult → ℚ := fun _ _ => 0

def dist1 : ResponseResult → ResponseResult → ℚ := fun _ _ => 1

def ref0 : ResponseResult := ⟨⟨200, "Hello"⟩, []⟩

def rrOf (s : String) : ResponseResult := ⟨⟨200, s⟩, []⟩

def emptyRR : ResponseResult := ⟨⟨200, ""⟩, []⟩

def bigRef : ResponseResult := ⟨⟨200, String.mk (List.replicate 50000 'a')⟩, []⟩

def resps10 : List ResponseResult :=
  List.replicate MINIMAL_RESP_CHECK_N (rrOf "ab")

/-! # Theorems -/

/-! ## Rounding facts -/

theorem pyRound3_one : pyRound3 1 = 1 := by
  norm_num [pyRound3, pyRoundInt]

theorem pyRound3_zero : pyRound3 0 = 0 := by
  norm_num [pyRound3, pyRoundInt]

/-! ## make_request, unfolded once and for all -/

theorem make_request_flag_eq (flag : Bool) (req_fun : Headers → Response)
    (dist_fun : ResponseResult → ResponseResult → ℚ)
    (headers : Headers) (ratio : ℚ) (ref : ResponseResult)
    (expected_text : Option String) (key : String) :
    make_request_flag flag req_fun dist_fun headers ratio ref expected_text
        key
      = (decide (pyRound3 (dist_fun ref ⟨req_fun headers, headers⟩) < ratio)
          || (!(is_text_present expected_text (req_fun headers).text)
              && flag),
         ⟨(req_fun headers).status_code, (req_fun headers).text.length,
          pyRound3 (dist_fun ref ⟨req_fun headers, headers⟩),
          decide (pyRound3 (dist_fun ref ⟨req_fun headers, headers⟩) < ratio),
          ⟨req_fun headers, headers⟩,
          is_text_present expected_text (req_fun headers).text, none⟩) := rfl

/-- C1 (amended): the anomaly classification make_request returns to the
caller equals (rounded similarity < threshold) OR (the missing-text
policy flag is on AND NOT (an expected text is configured, nonempty and
present in the body)); in particular an enabled policy with no configured
text also marks the probe anomalous.  The anomaly flag stored in the
returned record equals (rounded similarity < threshold) alone: the
missing-text disjunct is applied after the record is built and is never
stored.  With the shipped constant EXPECTED_TEXT_ANOMALY = False the two
coincide. -/
theorem c1_returned_vs_stored_anomaly (flag : Bool)
    (req_fun : Headers → Response)
    (dist_fun : ResponseResult → ResponseResult → ℚ)
    (headers : Headers) (ratio : ℚ) (ref : ResponseResult)
    (expected_text : Option String) (key : String) :
    (make_request_flag flag req_fun dist_fun headers ratio ref expected_text
        key).1
      = (decide (pyRound3 (dist_fun ref ⟨req_fun headers, headers⟩) < ratio)
          || (!(is_text_present expected_text (req_fun headers).text)
              && flag))
  ∧ (make_request_flag flag req_fun dist_fun headers ratio ref expected_text
        key).2.is_anomaly
      = decide (pyRound3 (dist_fun ref ⟨req_fun headers, headers⟩) < ratio) :=
  ⟨rfl, rfl⟩

/-- C1 (counterexample): with the policy enabled, an expected text
configured and missing, and similarity at the threshold (1 vs 1/2, so not
below it), the spec formula classifies the probe anomalous, but the
anomaly flag stored in the returned record is false. -/
theorem c1_counterexample :
    spec_is_anomaly (pyRound3 (dist1 ref0 ⟨req0 [], []⟩)) (1 / 2)
        (some "Bienvenue") (req0 []).text true = true
  ∧ (make_request_flag true req0 dist1 [] (1 / 2) ref0 (some "Bienvenue")
        "Accept-Language").2.is_anomaly = false := by
  have hlt : ¬((1 : ℚ) < 1 / 2) := by norm_num
  have habs : decide ("Bienvenue".data <:+: "Hello".data) = false := by decide
  constructor
  · show spec_is_anomaly (pyRound3 1) (1 / 2) (some "Bienvenue") "Hello" true
        = true
    rw [pyRound3_one]
    simp only [spec_is_anomaly, habs, decide_eq_false hlt]
    rfl
  · rw [make_request_flag_eq]
    show decide (pyRound3 (dist1 ref0 ⟨req0 [], []⟩) < 1 / 2) = false
    show decide (pyRound3 1 < 1 / 2) = false
    rw [pyRound3_one, decide_eq_false hlt]

/-- C10: the shipped missing-text policy constant is False, so for every
probe both the classification make_request returns and the stored flag
reduce to (similarity rounded to 3 digits) < threshold, independently of
the configured expected text and of its presence in the body. -/
theorem c10_policy_disabled (req_fun : Headers → Response)
    (dist_fun : ResponseResult → ResponseResult → ℚ)
    (headers : Headers) (ratio : ℚ) (ref : ResponseResult)
    (expected_text : Option String) (key : String) :
    EXPECTED_TEXT_ANOMALY = false
  ∧ (make_request req_fun dist_fun headers ratio ref expected_text key).1
      = decide (pyRound3 (dist_fun ref ⟨req_fun headers, headers⟩) < ratio)
  ∧ (make_request req_fun dist_fun headers ratio ref expected_text
        key).2.is_anomaly
      = decide (pyRound3 (dist_fun ref ⟨req_fun headers, headers⟩) < ratio) := by
  refine ⟨rfl, ?_, rfl⟩
  show (decide (pyRound3 (dist_fun ref ⟨req_fun headers, headers⟩) < ratio)
      || (!(is_text_present expected_text (req_fun headers).text) && false))
    = _
  rw [Bool.and_false, Bool.or_false]

/-! ## C4: metric selection -/

/-- C4 (amended): the similarity strategy is selected from the body size
of the FIRST repeated baseline sample, not of the reference snapshot:
whenever that sample is longer than 10000 characters the length-ratio
strategy is chosen, regardless of the reference body size and of the
timing flag. -/
theorem c4_selection_by_first_sample (responses : List ResponseResult)
    (slow : Bool) (r0 : ResponseResult) (rest : List ResponseResult)
    (he : responses = r0 :: rest)
    (h : 10000 < r0.response.text.length) :
    run_choice responses slow = some DistChoice.length := by
  subst he
  simp [run_choice, choose_dist, h]

theorem c4_witness :
    10000 < bigRef.response.text.length
  ∧ run_choice (bigRef :: List.replicate 9 (rrOf "tiny")) false
      = some DistChoice.length := by
  have hlen : bigRef.response.text.length = 50000 := by
    have h0 : bigRef.response.text.length = (List.replicate 50000 'a').length :=
      rfl
    rw [h0, List.length_replicate]
  refine ⟨by rw [hlen]; norm_num, ?_⟩
  exact c4_selection_by_first_sample _ false bigRef _ rfl
    (by rw [hlen]; norm_num)

/-- C4 (counterexample): a run whose reference body has 50000 characters
but whose first repeated sample is short selects the content metric, not
the length-ratio metric: the size decision reads the first sample only. -/
theorem c4_counterexample :
    bigRef.response.text.length = 50000
  ∧ 10000 < bigRef.response.text.length
  ∧ run_choice (rrOf "tiny" :: List.replicate 9 (rrOf "tiny")) false
      = some DistChoice.difflib
  ∧ DistChoice.difflib ≠ DistChoice.length := by
  have hlen : bigRef.response.text.length = 50000 := by
    have h0 : bigRef.response.text.length = (List.replicate 50000 'a').length :=
      rfl
    rw [h0, List.length_replicate]
  exact ⟨hlen, by rw [hlen]; norm_num, by decide, by decide⟩

/-! ## C5: symmetry of the two metrics -/

/-- C5 (amended): the length-ratio strategy is symmetric on every pair of
snapshots (the content strategy is not, see the counterexample). -/
theorem c5_length_ratio_symm (a b : ResponseResult) :
    length_ratio a b = length_ratio b a := by
  simp only [length_ratio]
  rw [Nat.max_comm b.response.text.length a.response.text.length,
    Nat.min_comm b.response.text.length a.response.text.length]

/-- C5 (counterexample): the content metric is not symmetric: on the
bodies "aaba" and "baaa" it returns 3/4 one way and 1/2 the other. -/
theorem c5_counterexample :
    difflib_ratio (rrOf "aaba") (rrOf "baaa")
      ≠ difflib_ratio (rrOf "baaa") (rrOf "aaba") := by
  have h1 : totalMatches "aaba".data "baaa".data = 3 := by decide
  have h2 : totalMatches "baaa".data "aaba".data = 2 := by decide
  have hl : "aaba".data.length + "baaa".data.length = 8 := by decide
  show calculate_ratio (totalMatches "aaba".data "baaa".data)
      ("aaba".data.length + "baaa".data.length)
    ≠ calculate_ratio (totalMatches "baaa".data "aaba".data)
      ("baaa".data.length + "aaba".data.length)
  rw [h1, h2, hl, show "baaa".data.length + "aaba".data.length = 8 from by
    decide]
  simp only [calculate_ratio]
  norm_num

/-- C6 (counterexample): on two snapshots with empty bodies the
length-ratio strategy divides by zero (a ZeroDivisionError in the source,
none here) instead of returning the similarity 1.0 required for
identical bodies. -/
theorem c6_counterexample :
    length_ratio emptyRR emptyRR = none
  ∧ (none : Option ℚ) ≠ some 1 := by
  constructor
  · simp [length_ratio, emptyRR]
  · simp

/-! ## Dict lemmas -/

theorem mem_dictSet {α : Type} (h : List (String × α)) (k : String) (v : α) :
    ∀ e ∈ dictSet h k v, e = (k, v) ∨ e ∈ h := by
  intro e he
  unfold dictSet at he
  split at he
  · obtain ⟨p, hp, hpe⟩ := List.mem_map.mp he
    by_cases hk : p.1 = k
    · left
      rw [← hpe, if_pos hk]
    · right
      rw [← hpe, if_neg hk]
      exact hp
  · rcases List.mem_append.mp he with h1 | h1
    · right
      exact h1
    · left
      simpa using h1

theorem dictSet_fresh {α : Type} (h : List (String × α)) (k : String) (v : α)
    (hf : ∀ e ∈ h, e.1 ≠ k) : dictSet h k v = h ++ [(k, v)] := by
  unfold dictSet
  rw [if_neg]
  intro hany
  obtain ⟨p, hp, hpk⟩ := List.any_eq_true.mp hany
  exact hf p hp (of_decide_eq_true hpk)

theorem lookup_eq_none_of_keys {α : Type} (l : List (String × α)) (k : String)
    (h : ∀ e ∈ l, e.1 ≠ k) : l.lookup k = none := by
  induction l with
  | nil => rfl
  | cons e rest ih =>
    have hek : e.1 ≠ k := h e (List.mem_cons_self e rest)
    obtain ⟨k1, v1⟩ := e
    show List.lookup k ((k1, v1) :: rest) = none
    rw [List.lookup_cons]
    rw [show (k == k1) = false from beq_eq_false_iff_ne.mpr fun hkk =>
      hek (by simpa using hkk.symm)]
    exact ih fun x hx => h x (List.mem_cons_of_mem _ hx)

/-! ## C7: identity-probe header sets -/

theorem cou_foldl_mem (req_fun : Headers → Response)
    (dist_fun : ResponseResult → ResponseResult → ℚ)
    (headers : Headers) (ratio : ℚ) (ref : ResponseResult)
    (etext : Option String) :
    ∀ (uas : List (String × String)) (res0 : List (String × ProbeData)),
      ∀ e ∈ uas.foldl (cou_step req_fun dist_fun headers ratio ref etext)
          res0,
        e ∈ res0 ∨ ∃ ua, (e.1, ua) ∈ uas
          ∧ e.2.resp.req_headers = ua_probe_headers headers ua
          ∧ e.2.ua = some ua := by
  intro uas
  induction uas with
  | nil =>
    intro res0 e he
    exact Or.inl he
  | cons p rest ih =>
    intro res0 e he
    rw [List.foldl_cons] at he
    rcases ih (cou_step req_fun dist_fun headers ratio ref etext res0 p) e he
      with h1 | ⟨ua, hmem, h2, h3⟩
    · simp only [cou_step] at h1
      split at h1
      · rcases mem_dictSet _ _ _ e h1 with h2 | h2
        · subst h2
          exact Or.inr ⟨p.2, List.mem_cons_self _ _, rfl, rfl⟩
        · exact Or.inl h2
      · exact Or.inl h1
    · exact Or.inr ⟨ua, List.mem_cons_of_mem _ hmem, h2, h3⟩

theorem ua_probe_lower_nodup (headers : Headers) (ua : String)
    (hlow : ∀ p ∈ headers, py_lower p.1 = "user-agent" →
      p.1 = "user-agent")
    (hnd : (headers.map fun p => py_lower p.1).Nodup) :
    ((ua_probe_headers headers ua).map fun p => py_lower p.1).Nodup := by
  have hua : py_lower "user-agent" = "user-agent" := by decide
  unfold ua_probe_headers dictSet
  split
  · rw [List.map_map]
    have heq : headers.map
          ((fun p => py_lower p.1) ∘
            fun p => if p.1 = "user-agent" then ("user-agent", ua) else p)
        = headers.map fun p => py_lower p.1 := by
      apply List.map_congr_left
      intro p _
      simp only [Function.comp_apply]
      by_cases hk : p.1 = "user-agent"
      · rw [if_pos hk, hk]
      · rw [if_neg hk]
    rw [heq]
    exact hnd
  next hany =>
    rw [List.map_append]
    apply List.Nodup.append hnd (by simp)
    intro x hx hx2
    have hxu : x = py_lower "user-agent" := by simpa using hx2
    rw [hua] at hxu
    obtain ⟨p, hp, hpl⟩ := List.mem_map.mp hx
    have hpk : p.1 = "user-agent" := hlow p hp (by rw [hpl, hxu])
    exact hany (List.any_eq_true.mpr ⟨p, hp, decide_eq_true hpk⟩)

/-- C7 (amended): every record the identity probe stores was probed with
exactly dictSet headers "user-agent" ua for its catalog entry ua: the
original headers with the entry at the exact lowercase key "user-agent"
replaced in place when that exact key exists, and appended otherwise.
When every header key that lowercases to "user-agent" is spelled exactly
"user-agent" (and the lowercased keys are distinct), the probed set has
no two case-insensitively equal keys; a differently capitalized
user-agent key instead yields a duplicate (see the counterexample). -/
theorem c7_identity_probe_headers (uas : List (String × String))
    (req_fun : Headers → Response)
    (dist_fun : ResponseResult → ResponseResult → ℚ)
    (headers : Headers) (ratio : ℚ) (ref : ResponseResult)
    (etext : Option String)
    (hlow : ∀ p ∈ headers, py_lower p.1 = "user-agent" →
      p.1 = "user-agent")
    (hnd : (headers.map fun p => py_lower p.1).Nodup) :
    ∀ e ∈ check_other_uas uas req_fun dist_fun headers ratio ref etext,
      ∃ ua, (e.1, ua) ∈ uas
        ∧ e.2.resp.req_headers = ua_probe_headers headers ua
        ∧ ((ua_probe_headers headers ua).map fun p => py_lower p.1).Nodup := by
  intro e he
  rcases cou_foldl_mem req_fun dist_fun headers ratio ref etext uas [] e he
    with h | ⟨ua, h1, h2, _⟩
  · simp at h
  · exact ⟨ua, h1, h2, ua_probe_lower_nodup headers ua hlow hnd⟩

theorem c7_witness :
    (∀ p ∈ ([("user-agent", "orig")] : Headers),
      py_lower p.1 = "user-agent" → p.1 = "user-agent")
  ∧ (([("user-agent", "orig")] : Headers).map fun p => py_lower p.1).Nodup
  ∧ ∀ e ∈ check_other_uas UAS req0 dist0 [("user-agent", "orig")] 1 ref0
        none,
      ∃ ua, (e.1, ua) ∈ UAS
        ∧ e.2.resp.req_headers
            = ua_probe_headers [("user-agent", "orig")] ua
        ∧ ((ua_probe_headers [("user-agent", "orig")] ua).map
            fun p => py_lower p.1).Nodup :=
  ⟨by decide, by decide,
    c7_identity_probe_headers UAS req0 dist0 [("user-agent", "orig")] 1 ref0
      none (by decide) (by decide)⟩

/-- C7 (counterexample): when the captured request spells the header
"User-Agent", the identity probe assigns the separate lowercase key
"user-agent", so the probed header set carries two case-insensitively
equal keys instead of replacing the value in place. -/
theorem c7_counterexample :
    ("modern ua", modern_ua) ∈ UAS
  ∧ ((ua_probe_headers [("User-Agent", "x")] modern_ua).map
      fun p => py_lower p.1) = ["user-agent", "user-agent"]
  ∧ ¬(((ua_probe_headers [("User-Agent", "x")] modern_ua).map
      fun p => py_lower p.1).Nodup) := by
  refine ⟨List.mem_cons_self _ _, by decide, ?_⟩
  intro hnd
  rw [show ((ua_probe_headers [("User-Agent", "x")] modern_ua).map
      fun p => py_lower p.1) = ["user-agent", "user-agent"] from by decide]
    at hnd
  simp at hnd

/-! ## C8: default user-agent injection and catalog exclusion -/

/-- C8: when the input header set has no user-agent under any
capitalization, main assigns the modern-browser default into the headers
before the baseline phase and deletes the "modern ua" entry from the
catalog, and consequently the identity-probe anomaly map of that run can
never contain the "modern ua" label. -/
theorem c8_default_ua_injected_and_excluded (headers : Headers)
    (h : "user-agent" ∉ headers.map fun p => py_lower p.1) :
    (prepare_headers headers).1 = dictSet headers "user-agent" modern_ua
  ∧ (prepare_headers headers).2
      = UAS.filter (fun p => decide (p.1 ≠ "modern ua"))
  ∧ ∀ (req_fun : Headers → Response)
      (dist_fun : ResponseResult → ResponseResult → ℚ)
      (ratio : ℚ) (ref : ResponseResult) (etext : Option String),
      (check_other_uas (prepare_headers headers).2 req_fun dist_fun
        (prepare_headers headers).1 ratio ref etext).lookup "modern ua"
        = none := by
  have hpre : prepare_headers headers
      = (dictSet headers "user-agent" modern_ua,
         UAS.filter fun p => decide (p.1 ≠ "modern ua")) := by
    unfold prepare_headers
    exact if_neg h
  have h2cat : (prepare_headers headers).2
      = UAS.filter fun p => decide (p.1 ≠ "modern ua") := by rw [hpre]
  refine ⟨by rw [hpre], h2cat, ?_⟩
  intro req_fun dist_fun ratio ref etext
  apply lookup_eq_none_of_keys
  intro e he
  rcases cou_foldl_mem req_fun dist_fun (prepare_headers headers).1 ratio ref
      etext (prepare_headers headers).2 [] e he with h1 | ⟨ua, h1, _, _⟩
  · simp at h1
  · rw [h2cat] at h1
    have hp := List.of_mem_filter h1
    exact of_decide_eq_true hp

theorem c8_witness :
    ("user-agent" ∉ ([("accept", "x")] : Headers).map fun p => py_lower p.1)
  ∧ (check_other_uas (prepare_headers [("accept", "x")]).2 req0 dist0
      (prepare_headers [("accept", "x")]).1 1 ref0 none).lookup "modern ua"
      = none := by
  have h : "user-agent"
      ∉ ([("accept", "x")] : Headers).map fun p => py_lower p.1 := by decide
  exact ⟨h, (c8_default_ua_injected_and_excluded _ h).2.2 req0 dist0 1 ref0
    none⟩

/-! ## C3: the header minimizer -/

theorem crh_foldl_eq (req_fun : Headers → Response)
    (dist_fun : ResponseResult → ResponseResult → ℚ)
    (headers : Headers) (ratio : ℚ) (ref : ResponseResult)
    (etext : Option String) :
    ∀ (ks : List String) (res : List (String × ProbeData))
      (del : List String),
      ks.Nodup → (∀ k ∈ ks, ∀ e ∈ res, e.1 ≠ k) →
      ks.foldl (crh_step req_fun dist_fun headers ratio ref etext) (res, del)
        = (res ++ ks.filterMap (fun k =>
              if (removal_probe req_fun dist_fun headers ratio ref etext
                  k).1
              then some (k,
                (removal_probe req_fun dist_fun headers ratio ref etext k).2)
              else none),
           del ++ ks.filter (fun k =>
              !(removal_probe req_fun dist_fun headers ratio ref etext
                  k).1)) := by
  intro ks
  induction ks with
  | nil =>
    intro res del _ _
    simp
  | cons k rest ih =>
    intro res del hnd hfresh
    rw [List.foldl_cons]
    have hk_rest : k ∉ rest := (List.nodup_cons.mp hnd).1
    by_cases han : (removal_probe req_fun dist_fun headers ratio ref etext
        k).1
    · have hstep : crh_step req_fun dist_fun headers ratio ref etext
          (res, del) k
          = (res ++ [(k,
              (removal_probe req_fun dist_fun headers ratio ref etext k).2)],
             del) := by
        unfold crh_step
        rw [if_pos han, dictSet_fresh _ _ _
          (fun e hel => hfresh k (List.mem_cons_self _ _) e hel)]
      rw [hstep, ih _ _ (List.nodup_cons.mp hnd).2 ?_]
      · rw [List.filterMap_cons, List.filter_cons, if_pos han, han]
        simp [List.append_assoc]
      · intro k2 hk2 e he2
        rcases List.mem_append.mp he2 with h3 | h3
        · exact hfresh k2 (List.mem_cons_of_mem _ hk2) e h3
        · have : e = (k,
              (removal_probe req_fun dist_fun headers ratio ref etext
                k).2) := by
            simpa using h3
          rw [this]
          intro hkk
          have hkk2 : k = k2 := hkk
          exact hk_rest (hkk2 ▸ hk2)
    · have hstep : crh_step req_fun dist_fun headers ratio ref etext
          (res, del) k = (res, del ++ [k]) := by
        unfold crh_step
        rw [if_neg han]
      rw [hstep, ih _ _ (List.nodup_cons.mp hnd).2
        (fun k2 hk2 e he2 => hfresh k2 (List.mem_cons_of_mem _ hk2) e he2)]
      rw [List.filterMap_cons, List.filter_cons, if_neg han,
        show (removal_probe req_fun dist_fun headers ratio ref etext k).1
          = false from by simpa using han]
      simp [List.append_assoc]

/-- C3: the header minimizer probes, for every key of the original
header set and in its insertion order, exactly the one-header-removed
variant built from the full original set (never from a shrinking
accumulator); the minimal header set it returns is the original set
minus exactly the keys whose single-removal probe was non-anomalous, and
the anomaly map carries exactly the anomalous (non-removable) keys, each
with its ProbeResult record. -/
theorem c3_minimizer_characterization (req_fun : Headers → Response)
    (dist_fun : ResponseResult → ResponseResult → ℚ)
    (headers : Headers) (ratio : ℚ) (ref : ResponseResult)
    (etext : Option String)
    (hnd : (headers.map Prod.fst).Nodup) :
    (check_removed_headers req_fun dist_fun headers ratio ref etext).1
        = headers.filter (fun kv =>
            (removal_probe req_fun dist_fun headers ratio ref etext kv.1).1)
  ∧ (check_removed_headers req_fun dist_fun headers ratio ref etext).2
        = (headers.map Prod.fst).filterMap (fun k =>
            if (removal_probe req_fun dist_fun headers ratio ref etext k).1
            then some (k,
              (removal_probe req_fun dist_fun headers ratio ref etext k).2)
            else none) := by
  unfold check_removed_headers
  rw [crh_foldl_eq req_fun dist_fun headers ratio ref etext
    (headers.map Prod.fst) [] [] hnd (by simp)]
  constructor
  · simp only [List.nil_append]
    apply List.filter_congr
    intro kv hkv
    have h1 : kv.1 ∈ headers.map Prod.fst := List.mem_map_of_mem _ hkv
    by_cases ha : (removal_probe req_fun dist_fun headers ratio ref etext
        kv.1).1
    · rw [ha, Bool.not_eq_true']
      rw [← Bool.not_eq_true, List.elem_iff]
      intro hmem
      have := List.of_mem_filter hmem
      rw [ha] at this
      simp at this
    · rw [show (removal_probe req_fun dist_fun headers ratio ref etext
          kv.1).1 = false from by simpa using ha]
      rw [Bool.not_eq_false', List.elem_iff]
      exact List.mem_filter.mpr ⟨h1, by
        rw [show (removal_probe req_fun dist_fun headers ratio ref etext
          kv.1).1 = false from by simpa using ha]
        rfl⟩
  · simp

theorem c3_witness :
    ((([("a", "1"), ("b", "2")] : Headers)).map Prod.fst).Nodup
  ∧ ((check_removed_headers req0 dist0 [("a", "1"), ("b", "2")] 1 ref0
        none).1
      = ([("a", "1"), ("b", "2")] : Headers).filter (fun kv =>
          (removal_probe req0 dist0 [("a", "1"), ("b", "2")] 1 ref0 none
            kv.1).1)
    ∧ (check_removed_headers req0 dist0 [("a", "1"), ("b", "2")] 1 ref0
        none).2
      = (([("a", "1"), ("b", "2")] : Headers).map Prod.fst).filterMap
          (fun k =>
            if (removal_probe req0 dist0 [("a", "1"), ("b", "2")] 1 ref0
                none k).1
            then some (k,
              (removal_probe req0 dist0 [("a", "1"), ("b", "2")] 1 ref0
                none k).2)
            else none)) :=
  ⟨by decide, c3_minimizer_characterization req0 dist0
    [("a", "1"), ("b", "2")] 1 ref0 none (by decide)⟩

/-! ## C9: the threshold is computed once and shared -/

theorem match_eq_min_rounded_getD (l : List ℚ) :
    (match l with
     | [] => (0 : ℚ)
     | x :: xs => pyRound3 (pymin x xs)) = (min_rounded l).getD 0 := by
  cases l <;> rfl

theorem analysis_closed_form (req_fun : Headers → Response)
    (dist_fun : ResponseResult → ResponseResult → ℚ)
    (ref : ResponseResult) (responses : List ResponseResult)
    (h2 : Headers) (u2 : List (String × String)) (e2 : Option String) :
    analysis req_fun dist_fun ref responses h2 u2 e2
      = (if (check_removed_headers req_fun dist_fun h2
            ((min_rounded (responses.map fun resp =>
              dist_fun ref resp)).getD 0) ref e2).1.length = h2.length
         then ⟨(min_rounded (responses.map fun resp =>
                 dist_fun ref resp)).getD 0,
               (check_removed_headers req_fun dist_fun h2
                 ((min_rounded (responses.map fun resp =>
                   dist_fun ref resp)).getD 0) ref e2).1,
               (check_removed_headers req_fun dist_fun h2
                 ((min_rounded (responses.map fun resp =>
                   dist_fun ref resp)).getD 0) ref e2).2, none⟩
         else ⟨(min_rounded (responses.map fun resp =>
                 dist_fun ref resp)).getD 0,
               (check_removed_headers req_fun dist_fun h2
                 ((min_rounded (responses.map fun resp =>
                   dist_fun ref resp)).getD 0) ref e2).1,
               (check_removed_headers req_fun dist_fun h2
                 ((min_rounded (responses.map fun resp =>
                   dist_fun ref resp)).getD 0) ref e2).2,
               some (check_other_uas u2 req_fun dist_fun h2
                 ((min_rounded (responses.map fun resp =>
                   dist_fun ref resp)).getD 0) ref e2)⟩) := by
  rw [← match_eq_min_rounded_getD]
  rfl

/-- C9: the equivalence threshold of a run is the rounded minimum of the
baseline similarities, computed once before any probing; the whole run
is the two probing phases applied to that same read-only value (the
identity phase runs only when some header was removable, and receives
the identical value), and no probing-phase input (headers, catalog,
expected text) can alter it. -/
theorem c9_threshold_once (req_fun : Headers → Response)
    (dist_fun : ResponseResult → ResponseResult → ℚ)
    (ref : ResponseResult) (responses : List ResponseResult)
    (headers : Headers) (uas : List (String × String))
    (etext : Option String) :
    (analysis req_fun dist_fun ref responses headers uas etext).reference_ratio
        = (min_rounded (responses.map fun resp => dist_fun ref resp)).getD 0
  ∧ analysis req_fun dist_fun ref responses headers uas etext
      = (if (check_removed_headers req_fun dist_fun headers
            ((min_rounded (responses.map fun resp =>
              dist_fun ref resp)).getD 0) ref etext).1.length
            = headers.length
         then ⟨(min_rounded (responses.map fun resp =>
                 dist_fun ref resp)).getD 0,
               (check_removed_headers req_fun dist_fun headers
                 ((min_rounded (responses.map fun resp =>
                   dist_fun ref resp)).getD 0) ref etext).1,
               (check_removed_headers req_fun dist_fun headers
                 ((min_rounded (responses.map fun resp =>
                   dist_fun ref resp)).getD 0) ref etext).2, none⟩
         else ⟨(min_rounded (responses.map fun resp =>
                 dist_fun ref resp)).getD 0,
               (check_removed_headers req_fun dist_fun headers
                 ((min_rounded (responses.map fun resp =>
                   dist_fun ref resp)).getD 0) ref etext).1,
               (check_removed_headers req_fun dist_fun headers
                 ((min_rounded (responses.map fun resp =>
                   dist_fun ref resp)).getD 0) ref etext).2,
               some (check_other_uas uas req_fun dist_fun headers
                 ((min_rounded (responses.map fun resp =>
                   dist_fun ref resp)).getD 0) ref etext)⟩)
  ∧ ∀ (headers2 : Headers) (uas2 : List (String × String))
      (etext2 : Option String),
      (analysis req_fun dist_fun ref responses headers2 uas2
        etext2).reference_ratio
        = (analysis req_fun dist_fun ref responses headers uas
            etext).reference_ratio := by
  refine ⟨?_, analysis_closed_form req_fun dist_fun ref responses headers
    uas etext, ?_⟩
  · rw [analysis_closed_form]
    split <;> rfl
  · intro headers2 uas2 etext2
    rw [analysis_closed_form req_fun dist_fun ref responses headers2 uas2
      etext2, analysis_closed_form req_fun dist_fun ref responses headers
      uas etext]
    split <;> split <;> rfl

/-! ## The content metric returns 1.0 on identical bodies

find_longest_match on the pair (s, s) with the full window returns the
whole string: the dp never records an off-diagonal best (a run ending at
(i, j) forces the same run on the earlier diagonal, which was offered
first), and the extension loops then stretch the diagonal block to the
whole string. -/

theorem mem_occ (b : List Char) (c : Char) (j : Nat) :
    j ∈ occ b c ↔ j < b.length ∧ b.getD j default = c := by
  simp [occ, List.mem_filter, List.mem_range]

theorem mem_b2jGet (b : List Char) (c : Char) (j : Nat)
    (h : j ∈ b2jGet b c) : j < b.length ∧ b.getD j default = c := by
  unfold b2jGet at h
  split at h
  · simp at h
  · exact (mem_occ b c j).mp h

theorem mem_b2jGet_self (s : List Char) (c : Char) (j : Nat)
    (h : j ∈ b2jGet s c) : j ∈ b2jGet s (s.getD j default) := by
  have h2 := mem_b2jGet s c j h
  rw [h2.2]
  exact h

theorem self_mem_b2jGet (s : List Char) (i j : Nat) (hin : i < s.length)
    (h : j ∈ b2jGet s (s.getD i default)) :
    i ∈ b2jGet s (s.getD i default) := by
  unfold b2jGet at h ⊢
  split at h
  · simp at h
  next hc =>
    rw [if_neg hc]
    exact (mem_occ s _ i).mpr ⟨hin, rfl⟩

theorem b2jGet_sorted (b : List Char) (c : Char) :
    (b2jGet b c).Pairwise (· < ·) := by
  unfold b2jGet
  split
  · exact List.Pairwise.nil
  · exact (List.pairwise_lt_range b.length).filter _

theorem ps_filter_window (s : List Char) (c : Char) :
    (b2jGet s c).filter (fun j => decide (0 ≤ j ∧ j < s.length))
      = b2jGet s c := by
  apply List.filter_eq_self.mpr
  intro j hj
  have hb := mem_b2jGet s c j hj
  simp [hb.1]

theorem diag_le (s : List Char) : ∀ j, diag s j ≤ j + 1 := by
  intro j
  induction j with
  | zero =>
    unfold diag
    split <;> omega
  | succ j ih =>
    unfold diag
    split <;> omega

theorem diag_of_mem (s : List Char) (j : Nat)
    (h : j ∈ b2jGet s (s.getD j default)) :
    diag s j = (match j with | 0 => 0 | m + 1 => diag s m) + 1 := by
  cases j with
  | zero =>
    show diag s 0 = 0 + 1
    rw [show diag s 0
      = if 0 ∈ b2jGet s (s.getD 0 default) then 1 else 0 from rfl, if_pos h]
  | succ m =>
    show diag s (m + 1) = diag s m + 1
    rw [show diag s (m + 1)
      = if m + 1 ∈ b2jGet s (s.getD (m + 1) default) then diag s m + 1
        else 0 from rfl, if_pos h]

theorem diag_of_not_mem (s : List Char) (j : Nat)
    (h : j ∉ b2jGet s (s.getD j default)) : diag s j = 0 := by
  cases j with
  | zero =>
    unfold diag
    rw [if_neg h]
  | succ m =>
    unfold diag
    rw [if_neg h]

theorem diag_pos_of_mem (s : List Char) (j : Nat)
    (h : j ∈ b2jGet s (s.getD j default)) : 1 ≤ diag s j := by
  rw [diag_of_mem s j h]
  omega

theorem range'_foldl_dpState (s : List Char) :
    ∀ m, (List.range' 0 m).foldl
      (fun st i =>
        let ps := b2jGet s (s.getD i default)
        (fl_row st.1 ps 0 s.length, fl_best st.1 ps 0 s.length i st.2))
      (fun _ => 0, (0, 0, 0)) = dpState s m := by
  intro m
  induction m with
  | zero => rfl
  | succ m ih =>
    rw [List.range'_concat, List.foldl_append, ih]
    simp only [Nat.zero_add, Nat.one_mul, List.foldl_cons, List.foldl_nil]
    rfl

theorem fl_dp_self (s : List Char) :
    fl_dp s s 0 s.length 0 s.length = (dpState s s.length).2 := by
  unfold fl_dp
  rw [Nat.sub_zero, range'_foldl_dpState]

/-- Column bound: every dp value in column j is at most the diagonal
value of column j (a run ending at (i, j) forces the same characters,
all unfiltered, down the diagonal through (j, j)). -/
theorem row_le_diag (s : List Char) :
    ∀ i j, (dpState s i).1 j ≤ diag s j := by
  intro i
  induction i with
  | zero =>
    intro j
    exact Nat.zero_le _
  | succ i ih =>
    intro j
    show fl_row (dpState s i).1 (b2jGet s (s.getD i default)) 0 s.length j
      ≤ diag s j
    unfold fl_row
    split
    next h =>
      have hmem := mem_b2jGet_self s _ j h.1
      cases j with
      | zero =>
        rw [show j2get (dpState s i).1 0 = 0 from rfl]
        exact diag_pos_of_mem s 0 hmem
      | succ m =>
        rw [show j2get (dpState s i).1 (m + 1) = (dpState s i).1 m from rfl,
          diag_of_mem s (m + 1) hmem]
        exact Nat.succ_le_succ (ih m)
    next =>
      exact Nat.zero_le _

/-- Row bound: every dp value in the row written while scanning index i
is at most the diagonal value of column i (the run ending at (i, j) also
runs down the diagonal through (i, i)). -/
theorem row_succ_le_diag_self (s : List Char) :
    ∀ i, i < s.length → ∀ j, (dpState s (i + 1)).1 j ≤ diag s i := by
  intro i
  induction i with
  | zero =>
    intro h0 j
    show fl_row (dpState s 0).1 (b2jGet s (s.getD 0 default)) 0 s.length j
      ≤ diag s 0
    unfold fl_row
    split
    next h =>
      have hself := self_mem_b2jGet s 0 j h0 h.1
      have hz : j2get (dpState s 0).1 j = 0 := by
        unfold j2get
        split <;> rfl
      rw [hz]
      exact diag_pos_of_mem s 0 hself
    next =>
      exact Nat.zero_le _
  | succ i ih =>
    intro hlt j
    show fl_row (dpState s (i + 1)).1 (b2jGet s (s.getD (i + 1) default)) 0
      s.length j ≤ diag s (i + 1)
    unfold fl_row
    split
    next h =>
      have hself := self_mem_b2jGet s (i + 1) j hlt h.1
      rw [diag_of_mem s (i + 1) hself]
      apply Nat.succ_le_succ
      unfold j2get
      split
      · exact Nat.zero_le _
      · exact ih (by omega) _
    next =>
      exact Nat.zero_le _

/-- The dp value written on the diagonal cell (i, i) is exactly diag. -/
theorem row_succ_diag_eq (s : List Char) :
    ∀ i, i < s.length → (dpState s (i + 1)).1 i = diag s i := by
  intro i
  induction i with
  | zero =>
    intro h0
    show fl_row (dpState s 0).1 (b2jGet s (s.getD 0 default)) 0 s.length 0
      = diag s 0
    unfold fl_row
    by_cases hm : 0 ∈ b2jGet s (s.getD 0 default)
    · rw [if_pos ⟨hm, Nat.le_refl 0, h0⟩, diag_of_mem s 0 hm]
      rfl
    · rw [if_neg (fun hc => hm hc.1), diag_of_not_mem s 0 hm]
  | succ i ih =>
    intro hlt
    show fl_row (dpState s (i + 1)).1 (b2jGet s (s.getD (i + 1) default)) 0
      s.length (i + 1) = diag s (i + 1)
    unfold fl_row
    by_cases hm : (i + 1) ∈ b2jGet s (s.getD (i + 1) default)
    · rw [if_pos ⟨hm, Nat.zero_le _, hlt⟩, diag_of_mem s (i + 1) hm,
        show j2get (dpState s (i + 1)).1 (i + 1) = (dpState s (i + 1)).1 i
          from rfl,
        ih (by omega)]
    · rw [if_neg (fun hc => hm hc.1), diag_of_not_mem s (i + 1) hm]

/-- A fold of best-updates over columns whose candidate values never
exceed the current best size leaves the best unchanged. -/
theorem fl_best_fold_no_update (row : Nat → Nat) (i : Nat) :
    ∀ (L : List Nat) (best : Nat × Nat × Nat),
      (∀ j ∈ L, j2get row j + 1 ≤ best.2.2) →
      L.foldl (fun best j =>
        let k := j2get row j + 1
        if best.2.2 < k then (i + 1 - k, j + 1 - k, k) else best) best
      = best := by
  intro L
  induction L with
  | nil =>
    intro best _
    rfl
  | cons j L ih =>
    intro best hb
    rw [List.foldl_cons]
    have hj := hb j (List.mem_cons_self _ _)
    have hstep : (if best.2.2 < j2get row j + 1
        then (i + 1 - (j2get row j + 1), j + 1 - (j2get row j + 1),
          j2get row j + 1)
        else best) = best := if_neg (by omega)
    show List.foldl _ (if best.2.2 < j2get row j + 1
      then (i + 1 - (j2get row j + 1), j + 1 - (j2get row j + 1),
        j2get row j + 1)
      else best) L = best
    rw [hstep]
    exact ih best fun x hx => hb x (List.mem_cons_of_mem _ hx)

theorem sorted_partition (L : List Nat) (i : Nat)
    (hs : L.Pairwise (· < ·)) (hi : i ∈ L) :
    ∃ L1 L2, L = L1 ++ i :: L2
      ∧ (∀ x ∈ L1, x < i) ∧ (∀ x ∈ L2, i < x) := by
  obtain ⟨L1, L2, rfl⟩ := List.append_of_mem hi
  refine ⟨L1, L2, rfl, ?_, ?_⟩
  · intro x hx
    exact (List.pairwise_append.mp hs).2.2 x hx i (List.mem_cons_self _ _)
  · intro x hx
    exact (List.pairwise_cons.mp (List.pairwise_append.mp hs).2.1).1 x hx

/-- The dp best triple stays on the diagonal: after any number of rows it
is (d, d, K) with d + K within the scanned prefix, and its size
dominates every diagonal value seen so far. -/
theorem best_invariant (s : List Char) :
    ∀ i, i ≤ s.length →
      (dpState s i).2.1 = (dpState s i).2.2.1
      ∧ (dpState s i).2.1 + (dpState s i).2.2.2 ≤ i
      ∧ ∀ m, m < i → diag s m ≤ (dpState s i).2.2.2 := by
  intro i
  induction i with
  | zero =>
    intro _
    exact ⟨rfl, Nat.le_refl 0, fun m hm => absurd hm (Nat.not_lt_zero m)⟩
  | succ i ih =>
    intro hle
    have hlt : i < s.length := hle
    obtain ⟨hdg, hsum, hbound⟩ := ih (Nat.le_of_succ_le hle)
    have hstep : (dpState s (i + 1)).2
        = fl_best (dpState s i).1 (b2jGet s (s.getD i default)) 0 s.length i
            (dpState s i).2 := rfl
    by_cases hps : b2jGet s (s.getD i default) = []
    · have hbb : (dpState s (i + 1)).2 = (dpState s i).2 := by
        rw [hstep]
        unfold fl_best
        rw [hps]
        rfl
      rw [hbb]
      refine ⟨hdg, Nat.le_succ_of_le hsum, ?_⟩
      intro m hm
      rcases Nat.lt_succ_iff_lt_or_eq.mp hm with h | h
      · exact hbound m h
      · subst h
        rw [diag_of_not_mem s m (by rw [hps]; exact List.not_mem_nil m)]
        exact Nat.zero_le _
    · obtain ⟨j0, hj0⟩ := List.exists_mem_of_ne_nil _ hps
      have hself : i ∈ b2jGet s (s.getD i default) :=
        self_mem_b2jGet s i j0 hlt hj0
      obtain ⟨L1, L2, hL, hL1, hL2⟩ :=
        sorted_partition _ i (b2jGet_sorted s _) hself
      have hki : j2get (dpState s i).1 i + 1 = diag s i := by
        by_cases hi0 : i = 0
        · rw [hi0, diag_of_mem s 0 (hi0 ▸ hself)]
          rfl
        · obtain ⟨m2, hm2⟩ : ∃ m2, i = m2 + 1 := ⟨i - 1, by omega⟩
          have hself2 : m2 + 1 ∈ b2jGet s (s.getD (m2 + 1) default) :=
            hm2 ▸ hself
          rw [hm2, diag_of_mem s (m2 + 1) hself2,
            show j2get (dpState s (m2 + 1)).1 (m2 + 1)
              = (dpState s (m2 + 1)).1 m2 from rfl,
            row_succ_diag_eq s m2 (by omega)]
      have hfold : (dpState s (i + 1)).2
          = List.foldl (fun best j =>
              let k := j2get (dpState s i).1 j + 1
              if best.2.2 < k then (i + 1 - k, j + 1 - k, k) else best)
              (dpState s i).2 (L1 ++ i :: L2) := by
        rw [hstep]
        unfold fl_best
        rw [ps_filter_window, hL]
      have hb1 : ∀ j ∈ L1,
          j2get (dpState s i).1 j + 1 ≤ (dpState s i).2.2.2 := by
        intro j hj
        have hjlt : j < i := hL1 j hj
        have hjps : j ∈ b2jGet s (s.getD i default) := by
          rw [hL]
          exact List.mem_append_left _ hj
        have hjself := mem_b2jGet_self s _ j hjps
        have hkle : j2get (dpState s i).1 j + 1 ≤ diag s j := by
          by_cases hj0 : j = 0
          · subst hj0
            rw [show j2get (dpState s i).1 0 = 0 from rfl]
            exact diag_pos_of_mem s 0 hjself
          · obtain ⟨m, rfl⟩ : ∃ m, j = m + 1 := ⟨j - 1, by omega⟩
            rw [show j2get (dpState s i).1 (m + 1) = (dpState s i).1 m
              from rfl, diag_of_mem s (m + 1) hjself]
            exact Nat.succ_le_succ (row_le_diag s i m)
        exact hkle.trans (hbound j hjlt)
      have hb2core : ∀ j ∈ L2,
          j2get (dpState s i).1 j + 1 ≤ j2get (dpState s i).1 i + 1 := by
        intro j hj
        have hij : i < j := hL2 j hj
        rw [hki]
        obtain ⟨m, rfl⟩ : ∃ m, j = m + 1 := ⟨j - 1, by omega⟩
        rw [show j2get (dpState s i).1 (m + 1) = (dpState s i).1 m from rfl]
        by_cases hi0 : i = 0
        · rw [hi0, show (dpState s 0).1 m = 0 from rfl]
          exact diag_pos_of_mem s 0 (hi0 ▸ hself)
        · obtain ⟨m2, hm2⟩ : ∃ m2, i = m2 + 1 := ⟨i - 1, by omega⟩
          have hself2 : m2 + 1 ∈ b2jGet s (s.getD (m2 + 1) default) :=
            hm2 ▸ hself
          rw [hm2, diag_of_mem s (m2 + 1) hself2]
          exact Nat.succ_le_succ
            (row_succ_le_diag_self s m2 (by omega) m)
      rw [hfold, List.foldl_append,
        fl_best_fold_no_update (dpState s i).1 i L1 (dpState s i).2 hb1,
        List.foldl_cons]
      by_cases hup : (dpState s i).2.2.2 < j2get (dpState s i).1 i + 1
      · have hstep2 : (let k := j2get (dpState s i).1 i + 1
            if (dpState s i).2.2.2 < k then (i + 1 - k, i + 1 - k, k)
            else (dpState s i).2)
            = (i + 1 - (j2get (dpState s i).1 i + 1),
               i + 1 - (j2get (dpState s i).1 i + 1),
               j2get (dpState s i).1 i + 1) := by
          show (if (dpState s i).2.2.2 < j2get (dpState s i).1 i + 1
            then (i + 1 - (j2get (dpState s i).1 i + 1),
              i + 1 - (j2get (dpState s i).1 i + 1),
              j2get (dpState s i).1 i + 1)
            else (dpState s i).2) = _
          rw [if_pos hup]
        rw [hstep2,
          fl_best_fold_no_update (dpState s i).1 i L2 _
            (fun j hj => hb2core j hj)]
        refine ⟨rfl, ?_, ?_⟩
        · have hk_le : j2get (dpState s i).1 i + 1 ≤ i + 1 := by
            rw [hki]
            exact diag_le s i
          show i + 1 - (j2get (dpState s i).1 i + 1)
            + (j2get (dpState s i).1 i + 1) ≤ i + 1
          omega
        · intro m hm
          rcases Nat.lt_succ_iff_lt_or_eq.mp hm with h | h
          · exact le_of_lt (lt_of_le_of_lt (hbound m h) hup)
          · subst h
            exact le_of_eq hki.symm
      · have hstep2 : (let k := j2get (dpState s i).1 i + 1
            if (dpState s i).2.2.2 < k then (i + 1 - k, i + 1 - k, k)
            else (dpState s i).2) = (dpState s i).2 := by
          show (if (dpState s i).2.2.2 < j2get (dpState s i).1 i + 1
            then (i + 1 - (j2get (dpState s i).1 i + 1),
              i + 1 - (j2get (dpState s i).1 i + 1),
              j2get (dpState s i).1 i + 1)
            else (dpState s i).2) = _
          rw [if_neg hup]
        rw [hstep2,
          fl_best_fold_no_update (dpState s i).1 i L2 _
            (fun j hj => (hb2core j hj).trans (by omega))]
        refine ⟨hdg, Nat.le_succ_of_le hsum, ?_⟩
        intro m hm
        rcases Nat.lt_succ_iff_lt_or_eq.mp hm with h | h
        · exact hbound m h
        · subst h
          rw [← hki]
          omega

theorem extLeft_self (s : List Char) :
    ∀ d K, extLeft s s 0 0 d d K = (0, 0, d + K) := by
  intro d
  induction d with
  | zero =>
    intro K
    show (0, 0, K) = (0, 0, 0 + K)
    rw [Nat.zero_add]
  | succ d ih =>
    intro K
    show extLeft s s 0 0 (d + 1) (d + 1) K = _
    unfold extLeft
    rw [if_pos ⟨Nat.zero_le d, Nat.succ_pos d, rfl⟩]
    show extLeft s s 0 0 d d (K + 1) = _
    rw [ih (K + 1)]
    have : d + (K + 1) = d + 1 + K := by omega
    rw [this]

theorem extRightAux_self (s : List Char) :
    ∀ fuel bs, bs ≤ s.length → s.length - bs < fuel →
      extRightAux s s s.length s.length 0 0 fuel bs = s.length := by
  intro fuel
  induction fuel with
  | zero =>
    intro bs h1 h2
    omega
  | succ fuel ih =>
    intro bs h1 h2
    unfold extRightAux
    by_cases hc : bs < s.length
    · rw [if_pos ⟨by omega, by omega, rfl⟩]
      exact ih (bs + 1) (by omega) (by omega)
    · rw [if_neg (by omega)]
      omega

theorem flm_self (s : List Char) :
    find_longest_match s s 0 s.length 0 s.length = (0, 0, s.length) := by
  obtain ⟨hdg, hsum, -⟩ := best_invariant s s.length (Nat.le_refl _)
  unfold find_longest_match
  rw [fl_dp_self]
  rcases hB : (dpState s s.length).2 with ⟨d, j, K⟩
  rw [hB] at hdg hsum
  dsimp at hdg hsum ⊢
  subst hdg
  rw [extLeft_self s d K]
  dsimp
  rw [extRightAux_self s (s.length + 1) (d + K) hsum (by omega)]

theorem totalMatches_self (s : List Char) : totalMatches s s = s.length := by
  show matchesAux s s (s.length + s.length + 1) 0 s.length 0 s.length
    = s.length
  rw [matchesAux, flm_self]
  dsimp only
  by_cases h : s.length = 0
  · rw [if_pos h]
    omega
  · rw [if_neg h, if_neg (by omega), if_neg (by omega)]
    omega

theorem difflib_ratio_identical (a b : ResponseResult)
    (h : a.response.text = b.response.text) : difflib_ratio a b = 1 := by
  unfold difflib_ratio
  rw [h, totalMatches_self]
  unfold calculate_ratio
  by_cases h0 : b.response.text.data.length + b.response.text.data.length
      = 0
  · rw [if_pos h0]
  · rw [if_neg h0]
    have hn : ((b.response.text.data.length + b.response.text.data.length : ℕ)
        : ℚ) ≠ 0 := by
      rw [Nat.cast_ne_zero]
      exact h0
    rw [div_eq_one_iff_eq hn]
    push_cast
    ring

theorem length_ratio_identical (a b : ResponseResult)
    (h : a.response.text = b.response.text)
    (hne : a.response.text ≠ "") : length_ratio a b = some 1 := by
  unfold length_ratio
  rw [h]
  have hl : b.response.text.length ≠ 0 := by
    rw [← h]
    intro hz
    apply hne
    apply String.ext
    rw [List.length_eq_zero.mp hz]
  show (if max b.response.text.length b.response.text.length = 0 then none
    else some (((min b.response.text.length b.response.text.length : ℕ) : ℚ)
      / ((max b.response.text.length b.response.text.length : ℕ) : ℚ)))
    = some 1
  rw [max_self, min_self, if_neg hl, div_self (Nat.cast_ne_zero.mpr hl)]

/-- C6 (amended): the content strategy returns exactly 1.0 whenever the
two bodies are identical, including two empty bodies; the length-ratio
strategy returns exactly 1.0 for identical nonempty bodies but divides by
zero on two empty bodies instead of returning 1.0 (see the
counterexample). -/
theorem c6_identical_bodies (a b : ResponseResult)
    (h : a.response.text = b.response.text) :
    difflib_ratio a b = 1
  ∧ (a.response.text ≠ "" → length_ratio a b = some 1) :=
  ⟨difflib_ratio_identical a b h,
    fun hne => length_ratio_identical a b h hne⟩

theorem c6_witness :
    (rrOf "ab").response.text = (rrOf "ab").response.text
  ∧ (rrOf "ab").response.text ≠ ""
  ∧ difflib_ratio (rrOf "ab") (rrOf "ab") = 1
  ∧ length_ratio (rrOf "ab") (rrOf "ab") = some 1 :=
  ⟨rfl, by decide, (c6_identical_bodies _ _ rfl).1,
    (c6_identical_bodies _ _ rfl).2 (by decide)⟩

/-! ## C2: the equivalence threshold -/

theorem dist_apply_identical (c : DistChoice) (ref r : ResponseResult)
    (h : r.response.text = ref.response.text) :
    dist_apply c ref r
      = (if ref.response.text = "" ∧ c = DistChoice.length then none
         else some 1) := by
  cases c with
  | difflib =>
    rw [if_neg (by simp)]
    show some (difflib_ratio ref r) = some 1
    rw [difflib_ratio_identical ref r h.symm]
  | length =>
    by_cases he : ref.response.text = ""
    · rw [if_pos ⟨he, rfl⟩]
      show length_ratio ref r = none
      unfold length_ratio
      rw [h, he]
      rfl
    · rw [if_neg (fun hc => he hc.1)]
      exact length_ratio_identical ref r h.symm he

theorem seqOption_const_one (l : List ResponseResult)
    (g : ResponseResult → Option ℚ) (hg : ∀ r ∈ l, g r = some 1) :
    seqOption (l.map g) = some (l.map fun _ => (1 : ℚ)) := by
  induction l with
  | nil => rfl
  | cons r l ih =>
    rw [List.map_cons, List.map_cons]
    show (g r).bind _ = _
    rw [hg r (List.mem_cons_self _ _),
      ih fun x hx => hg x (List.mem_cons_of_mem _ hx)]
    rfl

theorem pymin_const_one (l : List ℚ) (hl : ∀ x ∈ l, x = 1) :
    pymin 1 l = 1 := by
  induction l with
  | nil => rfl
  | cons x l ih =>
    show pymin (min 1 x) l = 1
    rw [hl x (List.mem_cons_self _ _), min_self]
    exact ih fun y hy => hl y (List.mem_cons_of_mem _ hy)

theorem run_threshold_identical (ref r0 : ResponseResult)
    (rest : List ResponseResult) (slow : Bool)
    (hsame : ∀ r ∈ r0 :: rest, r.response.text = ref.response.text) :
    run_threshold ref (r0 :: rest) slow = some 1
    ∨ (ref.response.text = ""
       ∧ run_threshold ref (r0 :: rest) slow = none) := by
  by_cases hcond : ref.response.text = ""
      ∧ choose_dist r0.response.text.length slow = DistChoice.length
  · right
    refine ⟨hcond.1, ?_⟩
    show (dist_apply (choose_dist r0.response.text.length slow) ref
      r0).bind _ = none
    rw [dist_apply_identical _ ref r0 (hsame r0 (List.mem_cons_self _ _)),
      if_pos hcond]
    rfl
  · left
    show (dist_apply (choose_dist r0.response.text.length slow) ref
      r0).bind _ = some 1
    rw [dist_apply_identical _ ref r0 (hsame r0 (List.mem_cons_self _ _)),
      if_neg hcond]
    show (seqOption (rest.map fun resp =>
        dist_apply (choose_dist r0.response.text.length slow) ref
          resp)).map _ = some 1
    rw [seqOption_const_one rest _ (fun r hr => by
      rw [dist_apply_identical _ ref r
        (hsame r (List.mem_cons_of_mem _ hr)), if_neg hcond])]
    show some (pyRound3 (pymin 1 (rest.map fun _ => (1 : ℚ)))) = some 1
    rw [pymin_const_one _ (fun x hx => by
      obtain ⟨r, hr, hxe⟩ := List.mem_map.mp hx
      exact hxe.symm), pyRound3_one]

/-- C2: the equivalence threshold of a run over N = 10 baseline samples
is the rounded minimum, over all the samples, of the similarity of the
reference to the sample under the selected metric strategy (crashes of
the metric propagate as none); consequently, whenever every sample body
is identical to the reference body, a run that produces a threshold
produces exactly 1.0, and a run with a nonempty reference body always
produces exactly 1.0. -/
theorem c2_threshold (ref : ResponseResult)
    (responses : List ResponseResult) (slow : Bool)
    (hN : responses.length = MINIMAL_RESP_CHECK_N) :
    run_threshold ref responses slow
      = (seqOption (responses.map fun resp =>
          dist_apply (choose_dist
            (match responses with
             | [] => 0
             | r0 :: _ => r0.response.text.length) slow) ref resp)).bind
          min_rounded
  ∧ ((∀ r ∈ responses, r.response.text = ref.response.text) →
      ∀ t, run_threshold ref responses slow = some t → t = 1)
  ∧ ((∀ r ∈ responses, r.response.text = ref.response.text) →
      ref.response.text ≠ "" →
      run_threshold ref responses slow = some 1) := by
  refine ⟨?_, ?_, ?_⟩
  · cases responses with
    | nil => rfl
    | cons r0 rest =>
      show (dist_apply (choose_dist r0.response.text.length slow) ref
        r0).bind _ = _
      rcases hq0 : dist_apply (choose_dist r0.response.text.length slow)
          ref r0 with _ | q0
      · rw [List.map_cons]
        show _ = ((dist_apply (choose_dist r0.response.text.length slow)
          ref r0).bind _).bind min_rounded
        rw [hq0]
        rfl
      · rw [List.map_cons]
        show _ = ((dist_apply (choose_dist r0.response.text.length slow)
          ref r0).bind _).bind min_rounded
        rw [hq0]
        show (seqOption (rest.map _)).map _
          = ((seqOption (rest.map _)).map _).bind min_rounded
        rcases hs : seqOption (rest.map fun resp =>
            dist_apply (choose_dist r0.response.text.length slow) ref resp)
          with _ | l
        · rfl
        · rfl
  · intro hsame t ht
    cases responses with
    | nil => exact absurd ht (by simp [run_threshold])
    | cons r0 rest =>
      rcases run_threshold_identical ref r0 rest slow hsame with h1 | ⟨_, h1⟩
      · rw [h1] at ht
        exact (Option.some.inj ht).symm
      · rw [h1] at ht
        exact absurd ht (by simp)
  · intro hsame hne
    cases responses with
    | nil => exact absurd hN (by decide)
    | cons r0 rest =>
      rcases run_threshold_identical ref r0 rest slow hsame
        with h1 | ⟨he, _⟩
      · exact h1
      · exact absurd he hne

theorem c2_witness :
    resps10.length = MINIMAL_RESP_CHECK_N
  ∧ (∀ r ∈ resps10, r.response.text = (rrOf "ab").response.text)
  ∧ (rrOf "ab").response.text ≠ ""
  ∧ run_threshold (rrOf "ab") resps10 false = some 1 :=
  ⟨by decide, by decide, by decide,
    (c2_threshold (rrOf "ab") resps10 false (by decide)).2.2 (by decide)
      (by decide)⟩

end HeadersAnalyzer
